import Mathlib

/-!
Shallow embedding, in Lean 4, of the core of the Brent oil change-point
analysis repository: the regime-switching likelihood and validation of
`BayesianChangePointModel.build_model` and the point-estimate extraction
(`src/models/bayesian_changepoint.py`), the convergence report of
`ModelDiagnostics.check_convergence` (`src/models/diagnostics.py`), and the
analysis layer `ChangePointAnalyzer` (`src/analysis/changepoint_analyzer.py`):
`identify_changepoints`, `quantify_impact`, `associate_with_events`.

Machine floats of the source are embedded as `ℚ` (or `ℝ` where a square root
occurs); `numpy`/`arviz` helpers used by the source (`np.round`, `np.median`,
`np.bincount(..).argmax()`, `az.hdi`) are embedded by their documented
algorithms.  Python exceptions are embedded as `Except String`.
-/

namespace BrentCP

/-- Regime parameters (`mu_1`, `sigma_1`, `mu_2`, `sigma_2`) of the
change-point likelihood built by `BayesianChangePointModel.build_model`. -/
structure RegimeParams where
  mu_1 : ℚ
  sigma_1 : ℚ
  mu_2 : ℚ
  sigma_2 : ℚ
deriving DecidableEq

/-- Mean parameter selected for the observation at index `t` by the likelihood
of `build_model`: the source computes `mu = pm.math.switch(tau >= idx, mu_1, mu_2)`
(bayesian_changepoint.py line 201), so the first regime is selected exactly
when `tau ≥ t`. -/
def obsMu (p : RegimeParams) (tau t : ℤ) : ℚ :=
  if tau ≥ t then p.mu_1 else p.mu_2

/-- Scale parameter selected for the observation at index `t` by the likelihood
of `build_model`: `sigma = pm.math.switch(tau >= idx, sigma_1, sigma_2)`
(bayesian_changepoint.py line 202). -/
def obsSigma (p : RegimeParams) (tau t : ℤ) : ℚ :=
  if tau ≥ t then p.sigma_1 else p.sigma_2

/-- Result of a successful `build_model` call: the number of observations and
the support `[tauLower, tauUpper]` wired into the `DiscreteUniform` prior
for `tau` (bayesian_changepoint.py lines 157-161). -/
structure BuiltModel where
  nObservations : ℕ
  tauLower : ℤ
  tauUpper : ℤ
deriving DecidableEq

/-- Validation and construction performed by
`BayesianChangePointModel.build_model` (bayesian_changepoint.py lines
141-161): raise `ValueError` when `min_segment_length * 2 >= n_observations`,
otherwise construct the model with
`tau ~ DiscreteUniform(min_segment_length, n_observations - min_segment_length - 1)`. -/
def build_model (data : List ℚ) (min_segment_length : ℤ) : Except String BuiltModel :=
  if min_segment_length * 2 ≥ (data.length : ℤ) then
    Except.error "min_segment_length is too large"
  else
    Except.ok ⟨data.length, min_segment_length, (data.length : ℤ) - min_segment_length - 1⟩

/-- C1 (code bug evidence): in the likelihood actually built by `build_model`,
the observation at index `t = tau` is assigned the BEFORE-regime parameters
`(mu_1, sigma_1)`, because the switch condition is `tau >= idx`.  The claim —
and the source's own docstring ("For t ≥ τ: y_t ~ Normal(μ₂, σ₂)") and inline
comment ("If idx < tau: use (mu_1, sigma_1)") — places index `tau` in the
after regime `(mu_2, sigma_2)`. -/
theorem C1_obs_at_tau_gets_before_regime :
    ∀ (p : RegimeParams) (tau : ℤ),
      obsMu p tau tau = p.mu_1 ∧ obsSigma p tau tau = p.sigma_1 := by
  intro p tau
  constructor <;> simp [obsMu, obsSigma]

/-- C2: `build_model` raises its validation error exactly when
`2 * min_segment_length ≥ N`, and returns a constructed model exactly when
`2 * min_segment_length < N`. -/
theorem C2_build_model_validation (data : List ℚ) (L : ℤ)
    (hN : 1 ≤ data.length) :
    ((∃ e, build_model data L = Except.error e) ↔ 2 * L ≥ (data.length : ℤ))
    ∧ (2 * L < (data.length : ℤ) → ∃ m, build_model data L = Except.ok m) := by
  constructor
  · constructor
    · intro ⟨e, he⟩
      by_contra hlt
      push_neg at hlt
      simp only [build_model] at he
      rw [if_neg (by omega)] at he
      exact Except.noConfusion he
    · intro hge
      refine ⟨"min_segment_length is too large", ?_⟩
      simp only [build_model]
      rw [if_pos (by omega)]
  · intro hlt
    refine ⟨⟨data.length, L, (data.length : ℤ) - L - 1⟩, ?_⟩
    simp only [build_model]
    rw [if_neg (by omega)]

/-- Witness for C2 at `N = 5`: `L = 3` (so `2L ≥ N`) raises, and `L = 2`
(so `2L < N`) returns a model. -/
theorem C2_build_model_validation_witness :
    (∃ e, build_model [1, 1, 1, 1, 1] 3 = Except.error e)
    ∧ (∃ m, build_model [1, 1, 1, 1, 1] 2 = Except.ok m) :=
  ⟨(C2_build_model_validation [1, 1, 1, 1, 1] 3 (by decide)).1.mpr (by decide),
   (C2_build_model_validation [1, 1, 1, 1, 1] 2 (by decide)).2 (by decide)⟩

/-- C5 counterexample: the claim says a non-positive `min_segment_length` must
raise a validation error, but `build_model` only checks the upper bound
`2 * min_segment_length ≥ N`: with `N = 5` and `min_segment_length = 0` it
silently succeeds, wiring `tau ~ DiscreteUniform(0, 4)`. -/
theorem C5_counterexample :
    build_model [1, 2, 3, 4, 5] 0 = Except.ok ⟨5, 0, 4⟩ := by
  rfl

/-- C5 amended: `build_model` performs no lower-bound validation on
`min_segment_length`; for every series of length `N ≥ 1` and every
`min_segment_length ≤ 0` it returns a constructed model without raising. -/
theorem C5_amended_nonpositive_accepted (data : List ℚ) (L : ℤ)
    (hL : L ≤ 0) (hN : 1 ≤ data.length) :
    ∃ m, build_model data L = Except.ok m := by
  refine ⟨⟨data.length, L, (data.length : ℤ) - L - 1⟩, ?_⟩
  simp only [build_model]
  rw [if_neg (by omega)]

/-- Witness for the amended C5: `min_segment_length = 0` on a 5-point series
is accepted. -/
theorem C5_amended_witness :
    ∃ m, build_model [1, 2, 3, 4, 5] 0 = Except.ok m :=
  C5_amended_nonpositive_accepted [1, 2, 3, 4, 5] 0 (by decide) (by decide)

/-- Which of the three convergence checks of `check_convergence` an issue
came from. -/
inductive ConvCheck
  | rhat
  | essBulk
  | essTail
deriving DecidableEq

/-- One row of the `az.summary` table consumed by `check_convergence`: the
variable name together with its R-hat, bulk-ESS and tail-ESS statistics
(the remaining summary columns are never read by `check_convergence`). -/
structure SummaryRow where
  name : String
  r_hat : ℚ
  ess_bulk : ℚ
  ess_tail : ℚ
deriving DecidableEq

/-- One reported convergence issue.  The source formats these as strings such
as `"R-hat for 'tau' = 1.0300 (threshold: 1.01)"`; the embedding keeps the
identifying content — offending variable, failed check, violated threshold —
structurally. -/
structure ConvIssue where
  var : String
  check : ConvCheck
  threshold : ℚ
deriving DecidableEq

/-- `ModelDiagnostics.check_convergence` (diagnostics.py lines 136-185):
starting from `converged = True`, the rows with `r_hat > rhat_threshold`,
then those with `ess_bulk < ess_bulk_threshold`, then those with
`ess_tail < ess_tail_threshold` are collected; each offending row appends one
issue and any offending row flips `converged` to `False`.  Returns the boolean
together with the issue list (reported by the source through a warning).
Default thresholds in the source: `rhat_threshold = 1.01`,
`ess_bulk_threshold = 100`, `ess_tail_threshold = 100`. -/
def check_convergence (summary : List SummaryRow)
    (rhat_threshold ess_bulk_threshold ess_tail_threshold : ℚ) :
    Bool × List ConvIssue :=
  let badRhat := summary.filter (fun r => decide (r.r_hat > rhat_threshold))
  let badBulk := summary.filter (fun r => decide (r.ess_bulk < ess_bulk_threshold))
  let badTail := summary.filter (fun r => decide (r.ess_tail < ess_tail_threshold))
  let issues :=
    badRhat.map (fun r => ⟨r.name, ConvCheck.rhat, rhat_threshold⟩)
      ++ badBulk.map (fun r => ⟨r.name, ConvCheck.essBulk, ess_bulk_threshold⟩)
      ++ badTail.map (fun r => ⟨r.name, ConvCheck.essTail, ess_tail_threshold⟩)
  (badRhat.isEmpty && badBulk.isEmpty && badTail.isEmpty, issues)

/-- C3: `check_convergence` returns `True` exactly when every checked row has
`r_hat ≤ rhat_threshold`, `ess_bulk ≥ ess_bulk_threshold` and
`ess_tail ≥ ess_tail_threshold`; and every violation is reported as an issue
naming the violating variable and the threshold it violated. -/
theorem C3_check_convergence (s : List SummaryRow) (a b c : ℚ) :
    ((check_convergence s a b c).1 = true ↔
      ∀ r ∈ s, r.r_hat ≤ a ∧ b ≤ r.ess_bulk ∧ c ≤ r.ess_tail)
    ∧ ∀ r ∈ s,
        (a < r.r_hat →
          (⟨r.name, ConvCheck.rhat, a⟩ : ConvIssue) ∈ (check_convergence s a b c).2)
        ∧ (r.ess_bulk < b →
          (⟨r.name, ConvCheck.essBulk, b⟩ : ConvIssue) ∈ (check_convergence s a b c).2)
        ∧ (r.ess_tail < c →
          (⟨r.name, ConvCheck.essTail, c⟩ : ConvIssue) ∈ (check_convergence s a b c).2) := by
  constructor
  · simp only [check_convergence, Bool.and_eq_true, List.isEmpty_iff,
      List.filter_eq_nil_iff, decide_eq_true_eq, not_lt]
    constructor
    · rintro ⟨⟨h1, h2⟩, h3⟩ r hr
      exact ⟨h1 r hr, h2 r hr, h3 r hr⟩
    · intro h
      exact ⟨⟨fun r hr => (h r hr).1, fun r hr => (h r hr).2.1⟩, fun r hr => (h r hr).2.2⟩
  · intro r hr
    refine ⟨fun hv => ?_, fun hv => ?_, fun hv => ?_⟩ <;>
      simp only [check_convergence, List.mem_append, List.mem_map, List.mem_filter,
        decide_eq_true_eq]
    · exact Or.inl (Or.inl ⟨r, ⟨hr, hv⟩, rfl⟩)
    · exact Or.inl (Or.inr ⟨r, ⟨hr, hv⟩, rfl⟩)
    · exact Or.inr ⟨r, ⟨hr, hv⟩, rfl⟩

/-- Witness for C3 at default thresholds: a well-behaved row keeps the boolean
true; a row with high R-hat and low bulk ESS is reported with its thresholds. -/
theorem C3_check_convergence_witness :
    (check_convergence [⟨"mu_1", 1, 500, 500⟩] (101/100) 100 100).1 = true
    ∧ (⟨"tau", ConvCheck.rhat, 101/100⟩ : ConvIssue) ∈
        (check_convergence [⟨"mu_1", 1, 500, 500⟩, ⟨"tau", 103/100, 50, 500⟩]
          (101/100) 100 100).2
    ∧ (⟨"tau", ConvCheck.essBulk, 100⟩ : ConvIssue) ∈
        (check_convergence [⟨"mu_1", 1, 500, 500⟩, ⟨"tau", 103/100, 50, 500⟩]
          (101/100) 100 100).2 :=
  ⟨(C3_check_convergence [⟨"mu_1", 1, 500, 500⟩] (101/100) 100 100).1.mpr
      (by intro r hr
          rw [List.mem_singleton] at hr
          subst hr
          refine ⟨by norm_num, by norm_num, by norm_num⟩),
   ((C3_check_convergence [⟨"mu_1", 1, 500, 500⟩, ⟨"tau", 103/100, 50, 500⟩]
      (101/100) 100 100).2 ⟨"tau", 103/100, 50, 500⟩ (by simp)).1 (by norm_num),
   ((C3_check_convergence [⟨"mu_1", 1, 500, 500⟩, ⟨"tau", 103/100, 50, 500⟩]
      (101/100) 100 100).2 ⟨"tau", 103/100, 50, 500⟩ (by simp)).2.1 (by norm_num)⟩

/-- External event record: a day-number date plus a name.  Pandas datetime
values of the source are embedded as whole-day numbers, so the
`(event_date - changepoint_date).dt.days` computation of the source is exact
integer subtraction. -/
structure Event where
  date : ℤ
  name : String
deriving DecidableEq

/-- Event row annotated with its signed day-distance
`event_date − changepoint_date` (the `days_from_changepoint` column added by
`associate_with_events`). -/
structure NearbyEvent where
  event : Event
  days_from_changepoint : ℤ
deriving DecidableEq

/-- Association result produced by `associate_with_events` for one change
point (changepoint_analyzer.py lines 370-379). -/
structure Association where
  changepoint_date : ℤ
  associated_events : List NearbyEvent
  closest_event : Option NearbyEvent
  days_from_closest : Option ℤ
  num_events_in_window : ℕ
deriving DecidableEq

/-- Ordering used by `associate_with_events` when it sorts the nearby events:
ascending absolute day-distance (the `abs_days_from_changepoint` sort key). -/
def absDistLE (a b : NearbyEvent) : Prop :=
  |a.days_from_changepoint| ≤ |b.days_from_changepoint|

instance : DecidableRel absDistLE := fun _ _ => Int.decLe _ _

instance : IsTotal NearbyEvent absDistLE := ⟨fun _ _ => le_total _ _⟩

instance : IsTrans NearbyEvent absDistLE := ⟨fun _ _ _ => le_trans⟩

/-- `ChangePointAnalyzer.associate_with_events` for a single change point
(changepoint_analyzer.py lines 335-379): keep the events inside the inclusive
window `[cp_date − window_days, cp_date + window_days]`, attach the signed
day-distance to each, sort ascending by absolute distance, report the head of
the sorted list as `closest_event`; with no event in the window the result
carries an empty list, `None` closest event, `None` distance and a zero
count — no exception is raised. -/
def associate_with_events (cp_date : ℤ) (events : List Event) (window_days : ℤ) :
    Association :=
  let nearby := events.filter (fun e =>
    decide (cp_date - window_days ≤ e.date) && decide (e.date ≤ cp_date + window_days))
  let annotated : List NearbyEvent := nearby.map (fun e => ⟨e, e.date - cp_date⟩)
  let sorted := annotated.insertionSort absDistLE
  let closest := sorted.head?
  { changepoint_date := cp_date
    associated_events := sorted
    closest_event := closest
    days_from_closest := closest.map (fun a => a.days_from_changepoint)
    num_events_in_window := sorted.length }

/-- C6: the events associated to a change point are exactly those in the
inclusive window, each annotated with its signed day-distance; they are listed
sorted ascending by absolute distance; `closest_event` is the first of them
and `days_from_closest` its signed distance; an empty window yields the empty
association without raising; and in the concrete scenario of events at
day-distances `[-5, +3, +40]` with a 30-day window, two events associate and
the closest is the one at `+3`. -/
theorem C6_associate_with_events (cp : ℤ) (events : List Event) (w : ℤ) :
    ((∀ a : NearbyEvent, a ∈ (associate_with_events cp events w).associated_events ↔
        (a.event ∈ events ∧ (cp - w ≤ a.event.date ∧ a.event.date ≤ cp + w)
          ∧ a.days_from_changepoint = a.event.date - cp))
    ∧ (associate_with_events cp events w).associated_events.Pairwise
        (fun a b => |a.days_from_changepoint| ≤ |b.days_from_changepoint|)
    ∧ (associate_with_events cp events w).closest_event
        = (associate_with_events cp events w).associated_events.head?
    ∧ (associate_with_events cp events w).days_from_closest
        = ((associate_with_events cp events w).closest_event).map
            (fun a => a.days_from_changepoint)
    ∧ (associate_with_events cp events w).num_events_in_window
        = (associate_with_events cp events w).associated_events.length
    ∧ ((∀ e ∈ events, ¬(cp - w ≤ e.date ∧ e.date ≤ cp + w)) →
        (associate_with_events cp events w).associated_events = []
          ∧ (associate_with_events cp events w).closest_event = none
          ∧ (associate_with_events cp events w).days_from_closest = none
          ∧ (associate_with_events cp events w).num_events_in_window = 0))
    ∧ ((associate_with_events 0 [⟨-5, "a"⟩, ⟨3, "b"⟩, ⟨40, "c"⟩] 30).num_events_in_window = 2
      ∧ (associate_with_events 0 [⟨-5, "a"⟩, ⟨3, "b"⟩, ⟨40, "c"⟩] 30).closest_event
          = some ⟨⟨3, "b"⟩, 3⟩) := by
  refine ⟨⟨?_, ?_, rfl, rfl, rfl, ?_⟩, by decide⟩
  · intro a
    simp only [associate_with_events, List.mem_insertionSort, List.mem_map,
      List.mem_filter, Bool.and_eq_true, decide_eq_true_eq]
    constructor
    · rintro ⟨e, ⟨he, h1, h2⟩, rfl⟩
      exact ⟨he, ⟨h1, h2⟩, rfl⟩
    · rintro ⟨he, ⟨h1, h2⟩, hd⟩
      exact ⟨a.event, ⟨he, h1, h2⟩, by cases a; simp_all⟩
  · exact List.sorted_insertionSort absDistLE _
  · intro h
    have hnil : events.filter (fun e =>
        decide (cp - w ≤ e.date) && decide (e.date ≤ cp + w)) = [] := by
      rw [List.filter_eq_nil_iff]
      intro e he
      simp only [Bool.and_eq_true, decide_eq_true_eq]
      exact fun hc => h e he hc
    simp only [associate_with_events, hnil, List.map_nil]
    exact ⟨rfl, rfl, rfl, rfl⟩

/-- Witness for C6: on the concrete scenario the window membership, head
closest-event and count facts are all realized. -/
theorem C6_associate_with_events_witness :
    ((⟨⟨3, "b"⟩, 3⟩ : NearbyEvent) ∈
        (associate_with_events 0 [⟨-5, "a"⟩, ⟨3, "b"⟩, ⟨40, "c"⟩] 30).associated_events)
    ∧ (associate_with_events 0 [⟨-5, "a"⟩, ⟨3, "b"⟩, ⟨40, "c"⟩] 30).num_events_in_window = 2 :=
  ⟨((C6_associate_with_events 0 [⟨-5, "a"⟩, ⟨3, "b"⟩, ⟨40, "c"⟩] 30).1.1
      ⟨⟨3, "b"⟩, 3⟩).mpr (by refine ⟨by simp, ⟨by decide, by decide⟩, by decide⟩),
   (C6_associate_with_events 0 [⟨-5, "a"⟩, ⟨3, "b"⟩, ⟨40, "c"⟩] 30).2.1⟩

/-- Length of a filtered list is monotone in the strength of the predicate. -/
theorem length_filter_le_of_imp {α : Type} (l : List α) (p q : α → Bool)
    (h : ∀ x, p x = true → q x = true) :
    (l.filter p).length ≤ (l.filter q).length := by
  induction l with
  | nil => simp
  | cons x xs ih =>
    by_cases hp : p x = true
    · rw [List.filter_cons_of_pos hp, List.filter_cons_of_pos (h x hp)]
      simpa using ih
    · rw [List.filter_cons_of_neg (by simpa using hp)]
      by_cases hq : q x = true
      · rw [List.filter_cons_of_pos hq]
        exact le_trans ih (Nat.le_succ _)
      · rw [List.filter_cons_of_neg (by simpa using hq)]
        exact ih

/-- C7: for a fixed change point and a fixed events table, the number of
associated events reported by `associate_with_events` is monotone
non-decreasing in `window_days`. -/
theorem C7_window_monotonicity (cp : ℤ) (events : List Event) (w1 w2 : ℤ)
    (h : w1 ≤ w2) :
    (associate_with_events cp events w1).num_events_in_window
      ≤ (associate_with_events cp events w2).num_events_in_window := by
  simp only [associate_with_events, List.length_insertionSort, List.length_map]
  exact length_filter_le_of_imp events _ _ (fun e he => by
    simp only [Bool.and_eq_true, decide_eq_true_eq] at *
    omega)

/-- Witness for C7: widening the window from 10 to 30 days does not decrease
the associated-event count of the concrete scenario. -/
theorem C7_window_monotonicity_witness :
    (associate_with_events 0 [⟨-5, "a"⟩, ⟨3, "b"⟩, ⟨40, "c"⟩] 10).num_events_in_window
      ≤ (associate_with_events 0 [⟨-5, "a"⟩, ⟨3, "b"⟩, ⟨40, "c"⟩] 30).num_events_in_window :=
  C7_window_monotonicity 0 [⟨-5, "a"⟩, ⟨3, "b"⟩, ⟨40, "c"⟩] 10 30 (by decide)

/-- Scalar `np.round`: round to the nearest integer, ties to even. -/
def roundHalfEven (q : ℚ) : ℤ :=
  if Int.fract q < 1/2 then ⌊q⌋
  else if 1/2 < Int.fract q then ⌊q⌋ + 1
  else if ⌊q⌋ % 2 = 0 then ⌊q⌋ else ⌊q⌋ + 1

/-- Scalar `np.mean`: arithmetic mean of the draws. -/
def npMean (l : List ℚ) : ℚ := l.sum / l.length

/-- Scalar `np.median`: sort ascending; middle element for odd length,
average of the two middle elements for even length. -/
def npMedian (l : List ℚ) : ℚ :=
  let s := l.insertionSort (· ≤ ·)
  let n := l.length
  if n % 2 = 1 then s.getD (n / 2) 0
  else (s.getD (n / 2 - 1) 0 + s.getD (n / 2) 0) / 2

/-- `np.bincount(l).argmax()`: the smallest value attaining the maximal
multiplicity, obtained by scanning the counts of `0, 1, ..., max l` and
keeping the first maximum. -/
def bincountArgmax (l : List ℕ) : ℕ :=
  (List.range (l.foldr max 0 + 1)).foldl
    (fun best i => if l.count best < l.count i then i else best) 0

theorem roundHalfEven_eq_floor_or_succ (q : ℚ) :
    roundHalfEven q = ⌊q⌋ ∨ roundHalfEven q = ⌊q⌋ + 1 := by
  unfold roundHalfEven
  split_ifs <;> simp

theorem abs_roundHalfEven_sub_le (q : ℚ) : |(roundHalfEven q : ℚ) - q| ≤ 1/2 := by
  have hfl : (⌊q⌋ : ℚ) + Int.fract q = q := Int.floor_add_fract q
  have h0 : 0 ≤ Int.fract q := Int.fract_nonneg q
  have h1 : Int.fract q < 1 := Int.fract_lt_one q
  unfold roundHalfEven
  split_ifs <;> rw [abs_le] <;> constructor <;> push_cast <;> linarith

theorem roundHalfEven_le_ceil (q : ℚ) : roundHalfEven q ≤ ⌈q⌉ := by
  have hfl : (⌊q⌋ : ℚ) + Int.fract q = q := Int.floor_add_fract q
  have h0 : 0 ≤ Int.fract q := Int.fract_nonneg q
  rcases roundHalfEven_eq_floor_or_succ q with h | h
  · rw [h]; exact Int.floor_le_ceil q
  · rw [h]
    have hfrac : Int.fract q ≠ 0 := by
      intro hc
      have hfe : roundHalfEven q = ⌊q⌋ := by
        unfold roundHalfEven
        rw [hc]
        norm_num
      omega
    have hq : (⌊q⌋ : ℚ) < q := by
      have : 0 < Int.fract q := lt_of_le_of_ne h0 (Ne.symm hfrac)
      linarith
    have hcast : (⌊q⌋ : ℚ) < (⌈q⌉ : ℚ) := lt_of_lt_of_le hq (Int.le_ceil q)
    have : ⌊q⌋ < ⌈q⌉ := by exact_mod_cast hcast
    omega

theorem roundHalfEven_bounds {L U : ℤ} {q : ℚ} (hL : (L : ℚ) ≤ q) (hU : q ≤ (U : ℚ)) :
    L ≤ roundHalfEven q ∧ roundHalfEven q ≤ U := by
  have hfloor : L ≤ ⌊q⌋ := Int.le_floor.mpr hL
  have hceil : ⌈q⌉ ≤ U := Int.ceil_le.mpr hU
  have hub := roundHalfEven_le_ceil q
  rcases roundHalfEven_eq_floor_or_succ q with h | h <;> rw [h] at hub ⊢ <;> omega

theorem npMean_bounds {l : List ℚ} {a b : ℚ} (hne : l ≠ [])
    (h : ∀ x ∈ l, a ≤ x ∧ x ≤ b) : a ≤ npMean l ∧ npMean l ≤ b := by
  have hlen : 0 < l.length := List.length_pos.mpr hne
  have hlenq : 0 < (l.length : ℚ) := by exact_mod_cast hlen
  have hupper : l.sum ≤ l.length • b := List.sum_le_card_nsmul l b (fun x hx => (h x hx).2)
  have hlower : l.length • a ≤ l.sum := List.card_nsmul_le_sum l a (fun x hx => (h x hx).1)
  rw [nsmul_eq_mul] at hupper hlower
  unfold npMean
  constructor
  · rw [le_div_iff₀ hlenq]; linarith
  · rw [div_le_iff₀ hlenq]; linarith

theorem sorted_getD_le {s : List ℚ} (hs : s.Pairwise (· ≤ ·)) {i j : ℕ}
    (hij : i ≤ j) (hj : j < s.length) : s.getD i 0 ≤ s.getD j 0 := by
  rcases Nat.lt_or_ge i j with hlt | hge
  · rw [List.getD_eq_getElem s 0 (lt_of_le_of_lt hij hj), List.getD_eq_getElem s 0 hj]
    exact List.pairwise_iff_getElem.mp hs i j (lt_of_le_of_lt hij hj) hj hlt
  · have : i = j := le_antisymm hij hge
    rw [this]

theorem getD_mem_of_lt {s : List ℚ} {i : ℕ} (hi : i < s.length) :
    s.getD i 0 ∈ s := by
  rw [List.getD_eq_getElem s 0 hi]
  exact List.getElem_mem hi

theorem npMedian_bounds {l : List ℚ} {a b : ℚ} (hne : l ≠ [])
    (h : ∀ x ∈ l, a ≤ x ∧ x ≤ b) : a ≤ npMedian l ∧ npMedian l ≤ b := by
  have hlen : 0 < l.length := List.length_pos.mpr hne
  have hslen : (l.insertionSort (· ≤ ·)).length = l.length :=
    List.length_insertionSort _ _
  have hmem : ∀ i, i < l.length →
      a ≤ (l.insertionSort (· ≤ ·)).getD i 0
        ∧ (l.insertionSort (· ≤ ·)).getD i 0 ≤ b := by
    intro i hi
    exact h _ ((List.mem_insertionSort _).mp (getD_mem_of_lt (by omega)))
  simp only [npMedian]
  split_ifs with hodd
  · exact hmem (l.length / 2) (by omega)
  · have h1 := hmem (l.length / 2 - 1) (by omega)
    have h2 := hmem (l.length / 2) (by omega)
    constructor <;> [linarith; linarith]

theorem foldl_argmax_count_ge (l : List ℕ) (r : List ℕ) (init : ℕ) :
    l.count init ≤
        l.count (r.foldl (fun best i => if l.count best < l.count i then i else best) init)
    ∧ ∀ i ∈ r, l.count i ≤
        l.count (r.foldl (fun best i => if l.count best < l.count i then i else best) init) := by
  induction r generalizing init with
  | nil => simp
  | cons x xs ih =>
    simp only [List.foldl_cons]
    by_cases hx : l.count init < l.count x
    · rw [if_pos hx]
      obtain ⟨h1, h2⟩ := ih x
      refine ⟨le_trans (le_of_lt hx) h1, ?_⟩
      intro i hi
      rcases List.mem_cons.mp hi with rfl | hi
      · exact h1
      · exact h2 i hi
    · rw [if_neg hx]
      obtain ⟨h1, h2⟩ := ih init
      refine ⟨h1, ?_⟩
      intro i hi
      rcases List.mem_cons.mp hi with rfl | hi
      · exact le_trans (Nat.le_of_not_lt hx) h1
      · exact h2 i hi

theorem le_foldr_max {l : List ℕ} {x : ℕ} (h : x ∈ l) : x ≤ l.foldr max 0 := by
  induction l with
  | nil => cases h
  | cons y ys ih =>
    rw [List.foldr_cons]
    rcases List.mem_cons.mp h with rfl | h
    · exact Nat.le_max_left _ _
    · exact le_trans (ih h) (Nat.le_max_right _ _)

theorem count_le_count_bincountArgmax (l : List ℕ) (v : ℕ) :
    l.count v ≤ l.count (bincountArgmax l) := by
  by_cases hv : v ≤ l.foldr max 0
  · exact (foldl_argmax_count_ge l (List.range (l.foldr max 0 + 1)) 0).2 v
      (List.mem_range.mpr (by omega))
  · have hz : l.count v = 0 := by
      rw [List.count_eq_zero]
      intro hv'
      exact hv (le_foldr_max hv')
    omega

theorem bincountArgmax_mem {l : List ℕ} (hne : l ≠ []) : bincountArgmax l ∈ l := by
  obtain ⟨x, hx⟩ := List.exists_mem_of_ne_nil l hne
  have h1 : l.count x ≤ l.count (bincountArgmax l) := count_le_count_bincountArgmax l x
  have h2 : 0 < l.count x := List.count_pos_iff.mpr hx
  exact List.count_pos_iff.mp (by omega)

/-- Shared point-estimate dispatch of
`BayesianChangePointModel.get_changepoint_estimate` (bayesian_changepoint.py
lines 380-393) and `ChangePointAnalyzer.identify_changepoints`
(changepoint_analyzer.py lines 112-124), which contain the same code: on the
flattened `tau` draws, method `mean` returns `int(np.round(np.mean(..)))`,
`median` returns `int(np.round(np.median(..)))`, `mode` returns
`int(np.bincount(..).argmax())` (numpy raises on a negative draw), and any
other method string raises `ValueError`. -/
def tau_point_estimate (tau_samples : List ℤ) (method : String) : Except String ℤ :=
  if method = "mean" then
    Except.ok (roundHalfEven (npMean (tau_samples.map (fun i : ℤ => (i : ℚ)))))
  else if method = "median" then
    Except.ok (roundHalfEven (npMedian (tau_samples.map (fun i : ℤ => (i : ℚ)))))
  else if method = "mode" then
    if tau_samples.any (fun i => decide (i < 0)) then
      Except.error "bincount requires non-negative input"
    else
      Except.ok ((bincountArgmax (tau_samples.map Int.toNat) : ℕ) : ℤ)
  else
    Except.error "method not recognized"

/-- Posterior slice of an `InferenceData` as read by `identify_changepoints`:
`posterior = none` embeds a trace without a posterior group; otherwise the
flattened draw lists per variable name.  Only `tau`, an integer-valued
variable, is ever read from the map by this function. -/
structure Trace where
  posterior : Option (List (String × List ℤ))
deriving DecidableEq

/-- Change-point record assembled by `identify_changepoints`
(changepoint_analyzer.py lines 135-142): the point-estimate index, the
method, the credible interval `(⌊hdi_lo⌋, ⌈hdi_hi⌉)` and its probability. -/
structure ChangePointRecord where
  index : ℤ
  estimate_method : String
  ci_lower : ℤ
  ci_upper : ℤ
  ci_probability : ℚ
deriving DecidableEq

/-- Index of the narrowest window of width `inc` over the sorted draws `s`:
`np.argmin` of the interval widths, keeping the first minimizer. -/
def hdiLowIdx (s : List ℚ) (inc : ℕ) : ℕ :=
  (List.range (s.length - inc)).foldl
    (fun best i =>
      if s.getD (i + inc) 0 - s.getD i 0 < s.getD (best + inc) 0 - s.getD best 0
      then i else best) 0

/-- `az.hdi` on a flat list of draws (the arviz sorted-interval search used by
identify_changepoints): sort the draws ascending; with window width
`inc = ⌊prob * n⌋`, return the pair `(sorted[i], sorted[i + inc])` of smallest
difference, `np.argmin` keeping the first minimizer. -/
def hdiInterval (l : List ℚ) (prob : ℚ) : ℚ × ℚ :=
  let s := l.insertionSort (· ≤ ·)
  let inc := ⌊prob * (s.length : ℚ)⌋.toNat
  (s.getD (hdiLowIdx s inc) 0, s.getD (hdiLowIdx s inc + inc) 0)

/-- `ChangePointAnalyzer.identify_changepoints` for a single change point
(changepoint_analyzer.py lines 105-149): raise unless the trace carries a
posterior containing the `tau` variable; flatten the `tau` draws; dispatch
the point estimate on `method` (raising on an unrecognized method); compute
the `az.hdi` interval at the given confidence and floor/ceil its endpoints;
assemble the record. -/
def identify_changepoints (trace : Trace) (confidence : ℚ) (method : String) :
    Except String ChangePointRecord :=
  match trace.posterior with
  | none => Except.error "trace must contain posterior samples"
  | some post =>
    match post.lookup "tau" with
    | none => Except.error "trace must contain tau variable"
    | some tau_samples =>
      match tau_point_estimate tau_samples method with
      | Except.error e => Except.error e
      | Except.ok est =>
        let q := hdiInterval (tau_samples.map (fun i : ℤ => (i : ℚ))) confidence
        Except.ok ⟨est, method, ⌊q.1⌋, ⌈q.2⌉, confidence⟩

/-- Counting in a `toNat`-mapped list agrees with counting in the original
list of non-negative integers. -/
theorem count_map_toNat {l : List ℤ} (hnn : ∀ x ∈ l, 0 ≤ x) (n : ℕ) :
    (l.map Int.toNat).count n = l.count (n : ℤ) := by
  induction l with
  | nil => simp
  | cons x xs ih =>
    have hx := hnn x (List.mem_cons_self x xs)
    have ih' := ih (fun y hy => hnn y (List.mem_cons_of_mem _ hy))
    simp only [List.map_cons, List.count_cons, ih']
    have hiff : (x.toNat = n) ↔ (x = (n : ℤ)) := by omega
    by_cases hc : x = (n : ℤ)
    · rw [if_pos (by simpa [hiff] using hc), if_pos (by simpa using hc)]
    · rw [if_neg (by simpa [hiff] using hc), if_neg (by simpa using hc)]

/-- Mode estimate: membership and count maximality over the original integer
draws, assuming all draws non-negative. -/
theorem mode_estimate_spec {l : List ℤ} (hne : l ≠ []) (hnn : ∀ x ∈ l, 0 ≤ x) :
    ((bincountArgmax (l.map Int.toNat) : ℕ) : ℤ) ∈ l
    ∧ ∀ v : ℤ, l.count v ≤ l.count ((bincountArgmax (l.map Int.toNat) : ℕ) : ℤ) := by
  have hmapne : l.map Int.toNat ≠ [] := by
    intro h
    exact hne (List.map_eq_nil_iff.mp h)
  have hmem : bincountArgmax (l.map Int.toNat) ∈ l.map Int.toNat :=
    bincountArgmax_mem hmapne
  obtain ⟨x, hxl, hxe⟩ := List.mem_map.mp hmem
  have hx0 := hnn x hxl
  have hxcast : ((bincountArgmax (l.map Int.toNat) : ℕ) : ℤ) = x := by omega
  constructor
  · rw [hxcast]; exact hxl
  · intro v
    rcases le_or_lt 0 v with hv | hv
    · have h1 : l.count v = (l.map Int.toNat).count v.toNat := by
        rw [count_map_toNat hnn v.toNat]
        congr 1
        omega
      have h2 : l.count ((bincountArgmax (l.map Int.toNat) : ℕ) : ℤ)
          = (l.map Int.toNat).count (bincountArgmax (l.map Int.toNat)) := by
        rw [count_map_toNat hnn]
      rw [h1, h2]
      exact count_le_count_bincountArgmax _ _
    · have : l.count v = 0 := by
        rw [List.count_eq_zero]
        intro hvl
        have := hnn v hvl
        omega
      omega

/-- C8: on the flattened `tau` draws, the `mean` estimate is the arithmetic
mean rounded to the nearest integer (within 1/2 of it), the `median` estimate
is the rounded median, the `mode` estimate is a most frequent draw; every
method string outside {mean, median, mode} makes the dispatch raise; and
`identify_changepoints` raises when the trace lacks a posterior or the
posterior lacks `tau`. -/
theorem C8_point_estimate_methods (tau_samples : List ℤ)
    (hne : tau_samples ≠ []) (hnn : ∀ x ∈ tau_samples, 0 ≤ x) :
    (∃ k, tau_point_estimate tau_samples "mean" = Except.ok k
        ∧ |(k : ℚ) - npMean (tau_samples.map (fun i : ℤ => (i : ℚ)))| ≤ 1/2)
    ∧ (∃ k, tau_point_estimate tau_samples "median" = Except.ok k
        ∧ |(k : ℚ) - npMedian (tau_samples.map (fun i : ℤ => (i : ℚ)))| ≤ 1/2)
    ∧ (∃ m, tau_point_estimate tau_samples "mode" = Except.ok m
        ∧ m ∈ tau_samples
        ∧ ∀ v : ℤ, tau_samples.count v ≤ tau_samples.count m)
    ∧ (∀ method : String, method ∉ ["mean", "median", "mode"] →
        ∃ e, tau_point_estimate tau_samples method = Except.error e)
    ∧ (∀ (confidence : ℚ) (method : String),
        ∃ e, identify_changepoints ⟨none⟩ confidence method = Except.error e)
    ∧ (∀ (confidence : ℚ) (method : String) (post : List (String × List ℤ)),
        post.lookup "tau" = none →
          ∃ e, identify_changepoints ⟨some post⟩ confidence method = Except.error e)
    ∧ (∀ (confidence : ℚ) (method : String) (post : List (String × List ℤ)),
        post.lookup "tau" = some tau_samples →
          method ∉ ["mean", "median", "mode"] →
            ∃ e, identify_changepoints ⟨some post⟩ confidence method
              = Except.error e) := by
  refine ⟨?_, ?_, ?_, ?_, ?_, ?_, ?_⟩
  · exact ⟨_, rfl, abs_roundHalfEven_sub_le _⟩
  · exact ⟨_, rfl, abs_roundHalfEven_sub_le _⟩
  · have hany : tau_samples.any (fun i => decide (i < 0)) = false := by
      rw [List.any_eq_false]
      intro x hx
      simpa using not_lt.mpr (hnn x hx)
    obtain ⟨hmem, hcount⟩ := mode_estimate_spec hne hnn
    refine ⟨_, ?_, hmem, hcount⟩
    simp [tau_point_estimate, hany]
  · intro method hm
    simp only [List.mem_cons, List.mem_singleton, not_or] at hm
    obtain ⟨h1, h2, h3⟩ := hm
    refine ⟨"method not recognized", ?_⟩
    simp [tau_point_estimate, h1, h2, h3]
  · intro confidence method
    exact ⟨_, rfl⟩
  · intro confidence method post hnone
    refine ⟨"trace must contain tau variable", ?_⟩
    simp [identify_changepoints, hnone]
  · intro confidence method post hsome hm
    simp only [List.mem_cons, List.mem_singleton, not_or] at hm
    obtain ⟨h1, h2, h3⟩ := hm
    refine ⟨"method not recognized", ?_⟩
    simp [identify_changepoints, hsome, tau_point_estimate, h1, h2, h3]

/-- Fold computing a first-minimizer lands on its initial value or in the
scanned list. -/
theorem foldl_argmin_mem (g : ℕ → ℚ) (r : List ℕ) (init : ℕ) :
    r.foldl (fun best i => if g i < g best then i else best) init ∈ init :: r := by
  induction r generalizing init with
  | nil => simp
  | cons x xs ih =>
    simp only [List.foldl_cons]
    by_cases hx : g x < g init
    · rw [if_pos hx]
      rcases List.mem_cons.mp (ih x) with h | h
      · rw [h]; exact List.mem_cons_of_mem _ (List.mem_cons_self _ _)
      · exact List.mem_cons_of_mem _ (List.mem_cons_of_mem _ h)
    · rw [if_neg hx]
      rcases List.mem_cons.mp (ih init) with h | h
      · rw [h]; exact List.mem_cons_self _ _
      · exact List.mem_cons_of_mem _ (List.mem_cons_of_mem _ h)

/-- The argmin index of `hdiLowIdx` stays strictly below `s.length - inc`
whenever that range is non-empty. -/
theorem hdiLowIdx_lt {s : List ℚ} {inc : ℕ} (h : inc < s.length) :
    hdiLowIdx s inc < s.length - inc := by
  have hmem : hdiLowIdx s inc ∈ (0 : ℕ) :: List.range (s.length - inc) :=
    foldl_argmin_mem (fun i => s.getD (i + inc) 0 - s.getD i 0) _ 0
  rcases List.mem_cons.mp hmem with h0 | hr
  · omega
  · exact List.mem_range.mp hr

/-- The two endpoints returned by the `az.hdi` embedding are ordered, for any
non-empty draw list and any probability in `[0, 1)`. -/
theorem hdiInterval_fst_le_snd (l : List ℚ) (prob : ℚ) (hne : l ≠ [])
    (h0 : 0 ≤ prob) (h1 : prob < 1) :
    (hdiInterval l prob).1 ≤ (hdiInterval l prob).2 := by
  have hlen : 0 < l.length := List.length_pos.mpr hne
  have hslen : (l.insertionSort (· ≤ ·)).length = l.length :=
    List.length_insertionSort _ _
  have hsorted : (l.insertionSort (· ≤ ·)).Pairwise (· ≤ ·) :=
    List.sorted_insertionSort _ _
  have hfl_lt : ⌊prob * ((l.insertionSort (· ≤ ·)).length : ℚ)⌋
      < ((l.insertionSort (· ≤ ·)).length : ℤ) := by
    rw [Int.floor_lt]
    push_cast
    have hq : (0 : ℚ) < ((l.insertionSort (· ≤ ·)).length : ℚ) := by
      rw [hslen]; exact_mod_cast hlen
    nlinarith
  have hinc_lt : ⌊prob * ((l.insertionSort (· ≤ ·)).length : ℚ)⌋.toNat
      < (l.insertionSort (· ≤ ·)).length := by omega
  have hlo := hdiLowIdx_lt hinc_lt
  simp only [hdiInterval]
  exact sorted_getD_le hsorted (Nat.le_add_right _ _) (by omega)

/-- Witness for C8 on the draws `[2, 3, 3]`: every part of the conjunction is
realized at a concrete input. -/
theorem C8_point_estimate_methods_witness :
    (∃ k, tau_point_estimate [2, 3, 3] "mean" = Except.ok k
        ∧ |(k : ℚ) - npMean ([(2 : ℤ), 3, 3].map (fun i : ℤ => (i : ℚ)))| ≤ 1/2)
    ∧ (∃ k, tau_point_estimate [2, 3, 3] "median" = Except.ok k
        ∧ |(k : ℚ) - npMedian ([(2 : ℤ), 3, 3].map (fun i : ℤ => (i : ℚ)))| ≤ 1/2)
    ∧ (∃ m, tau_point_estimate [2, 3, 3] "mode" = Except.ok m
        ∧ m ∈ [(2 : ℤ), 3, 3]
        ∧ ∀ v : ℤ, [(2 : ℤ), 3, 3].count v ≤ [(2 : ℤ), 3, 3].count m) := by
  obtain ⟨h1, h2, h3, _⟩ := C8_point_estimate_methods [2, 3, 3] (by decide) (by decide)
  exact ⟨h1, h2, h3⟩

/-- C9: whenever the trace carries `tau` draws that all lie in the closed
integer range `[L, N − L − 1]`, the record returned by
`identify_changepoints` (for each of the three estimate methods and any
confidence in `(0,1)`) has an ordered credible interval and a point-estimate
index inside `[L, N − L − 1]`. -/
theorem C9_record_bounds (post : List (String × List ℤ)) (tau_samples : List ℤ)
    (confidence : ℚ) (method : String) (L N : ℤ)
    (hpost : post.lookup "tau" = some tau_samples)
    (hne : tau_samples ≠ [])
    (hL : 0 ≤ L)
    (hbounds : ∀ x ∈ tau_samples, L ≤ x ∧ x ≤ N - L - 1)
    (hc0 : 0 < confidence) (hc1 : confidence < 1)
    (hm : method = "mean" ∨ method = "median" ∨ method = "mode") :
    ∃ rec, identify_changepoints ⟨some post⟩ confidence method = Except.ok rec
      ∧ rec.ci_lower ≤ rec.ci_upper
      ∧ L ≤ rec.index ∧ rec.index ≤ N - L - 1 := by
  have hmapne : tau_samples.map (fun i : ℤ => (i : ℚ)) ≠ [] := by
    intro h
    exact hne (List.map_eq_nil_iff.mp h)
  have hmb : ∀ y ∈ tau_samples.map (fun i : ℤ => (i : ℚ)),
      (L : ℚ) ≤ y ∧ y ≤ ((N - L - 1 : ℤ) : ℚ) := by
    intro y hy
    obtain ⟨x, hxl, rfl⟩ := List.mem_map.mp hy
    obtain ⟨hxL, hxU⟩ := hbounds x hxl
    exact ⟨by exact_mod_cast hxL, by exact_mod_cast hxU⟩
  have hhdi := hdiInterval_fst_le_snd (tau_samples.map (fun i : ℤ => (i : ℚ)))
    confidence hmapne (le_of_lt hc0) hc1
  have hci : ⌊(hdiInterval (tau_samples.map (fun i : ℤ => (i : ℚ))) confidence).1⌋
      ≤ ⌈(hdiInterval (tau_samples.map (fun i : ℤ => (i : ℚ))) confidence).2⌉ :=
    le_trans (Int.floor_le_floor hhdi) (Int.floor_le_ceil _)
  obtain ⟨est, hest, hestL, hestU⟩ :
      ∃ k, tau_point_estimate tau_samples method = Except.ok k
        ∧ L ≤ k ∧ k ≤ N - L - 1 := by
    rcases hm with rfl | rfl | rfl
    · have hb := npMean_bounds hmapne hmb
      have hr := roundHalfEven_bounds hb.1 hb.2
      exact ⟨_, rfl, hr.1, hr.2⟩
    · have hb := npMedian_bounds hmapne hmb
      have hr := roundHalfEven_bounds hb.1 hb.2
      exact ⟨_, rfl, hr.1, hr.2⟩
    · have hnn : ∀ x ∈ tau_samples, 0 ≤ x := by
        intro x hx
        exact le_trans hL (hbounds x hx).1
      have hany : tau_samples.any (fun i => decide (i < 0)) = false := by
        rw [List.any_eq_false]
        intro x hx
        simpa using not_lt.mpr (hnn x hx)
      obtain ⟨hmem, _⟩ := mode_estimate_spec hne hnn
      obtain ⟨hmL, hmU⟩ := hbounds _ hmem
      refine ⟨_, ?_, hmL, hmU⟩
      simp [tau_point_estimate, hany]
  refine ⟨⟨est, method,
    ⌊(hdiInterval (tau_samples.map (fun i : ℤ => (i : ℚ))) confidence).1⌋,
    ⌈(hdiInterval (tau_samples.map (fun i : ℤ => (i : ℚ))) confidence).2⌉,
    confidence⟩, ?_, hci, hestL, hestU⟩
  simp [identify_changepoints, hpost, hest]

/-- Witness for C9: draws `[2, 3, 3]` with `L = 2`, `N = 7`, confidence
`9/10`, method `mean`. -/
theorem C9_record_bounds_witness :
    ∃ rec, identify_changepoints ⟨some [("tau", [2, 3, 3])]⟩ (9/10) "mean"
        = Except.ok rec
      ∧ rec.ci_lower ≤ rec.ci_upper
      ∧ (2 : ℤ) ≤ rec.index ∧ rec.index ≤ 7 - 2 - 1 :=
  C9_record_bounds [("tau", [2, 3, 3])] [2, 3, 3] (9/10) "mean" 2 7
    (by simp) (by decide) (by decide) (by decide) (by norm_num) (by norm_num)
    (Or.inl rfl)

/-- Arithmetic mean (`np.mean`) over real-valued draws. -/
noncomputable def rMean (l : List ℝ) : ℝ := l.sum / l.length

/-- `np.std`: population standard deviation — the square root of the mean
squared deviation from the mean. -/
noncomputable def rStd (l : List ℝ) : ℝ :=
  Real.sqrt (rMean (l.map (fun x => (x - rMean l) ^ 2)))

/-- Direction label assigned by `quantify_impact`. -/
inductive Direction
  | increase
  | decrease
  | minimal
deriving DecidableEq

/-- Magnitude label assigned by `quantify_impact`. -/
inductive Magnitude
  | negligible
  | small
  | moderate
  | large
  | veryLarge
deriving DecidableEq

open Classical in
/-- Direction branch of `quantify_impact` (changepoint_analyzer.py lines
208-214): `minimal` when `abs(mean_change_pct) < 5`, else by the sign of
`mean_change`.  `mean_change_pct = none` embeds the `np.inf` sentinel, for
which `abs(np.inf) < 5` is false, so the `minimal` branch is skipped. -/
noncomputable def direction_label (mean_change_pct : Option ℝ) (mean_change : ℝ) :
    Direction :=
  match mean_change_pct with
  | some p =>
    if |p| < 5 then Direction.minimal
    else if mean_change > 0 then Direction.increase
    else Direction.decrease
  | none =>
    if mean_change > 0 then Direction.increase else Direction.decrease

open Classical in
/-- Magnitude bucketing of `quantify_impact` (changepoint_analyzer.py lines
220-229). -/
noncomputable def magnitude_label (magnitude_in_std : ℝ) : Magnitude :=
  if magnitude_in_std < 0.2 then Magnitude.negligible
  else if magnitude_in_std < 0.5 then Magnitude.small
  else if magnitude_in_std < 1.0 then Magnitude.moderate
  else if magnitude_in_std < 2.0 then Magnitude.large
  else Magnitude.veryLarge

/-- Result slice of `quantify_impact` covering the mean-impact fields
(changepoint_analyzer.py lines 231-241); `mean_change_pct = none` embeds the
`np.inf` value assigned when `mu_before == 0`. -/
structure ImpactRecord where
  mu_before : ℝ
  mu_after : ℝ
  mean_change : ℝ
  mean_change_pct : Option ℝ
  direction : Direction
  magnitude : Magnitude
  magnitude_in_std : ℝ

open Classical in
/-- `ChangePointAnalyzer.quantify_impact` (changepoint_analyzer.py lines
188-241), restricted to the fields computed from the `mu_1`/`mu_2` draws and
the series: posterior means of the two regimes, `mean_change = mu_after -
mu_before`, `mean_change_pct = mean_change / abs(mu_before) * 100` (infinite
when `mu_before == 0`), the direction label, and the magnitude from
`abs(mean_change) / np.std(data)` guarded to `0` when the standard deviation
is not positive. -/
noncomputable def quantify_impact (mu_1_samples mu_2_samples data : List ℝ) :
    ImpactRecord :=
  let mu_before := rMean mu_1_samples
  let mu_after := rMean mu_2_samples
  let mean_change := mu_after - mu_before
  let mean_change_pct : Option ℝ :=
    if mu_before ≠ 0 then some (mean_change / |mu_before| * 100) else none
  let direction := direction_label mean_change_pct mean_change
  let std_data := rStd data
  let magnitude_in_std := if std_data > 0 then |mean_change| / std_data else 0
  let magnitude := magnitude_label magnitude_in_std
  ⟨mu_before, mu_after, mean_change, mean_change_pct, direction, magnitude,
    magnitude_in_std⟩

theorem direction_label_minimal_iff (pct : Option ℝ) (ch : ℝ) :
    direction_label pct ch = Direction.minimal ↔ ∃ p, pct = some p ∧ |p| < 5 := by
  cases pct with
  | none =>
    simp only [direction_label]
    split_ifs <;> simp
  | some p =>
    simp only [direction_label]
    split_ifs with h1 h2 <;> simp_all

theorem direction_label_not_minimal (pct : Option ℝ) (ch : ℝ)
    (h : direction_label pct ch ≠ Direction.minimal) :
    (direction_label pct ch = Direction.increase ↔ 0 < ch)
    ∧ (direction_label pct ch = Direction.decrease ↔ ¬ 0 < ch) := by
  cases pct with
  | none =>
    simp only [direction_label] at h ⊢
    split_ifs with h1 <;> simp_all
  | some p =>
    simp only [direction_label] at h ⊢
    split_ifs with h1 h2 <;> simp_all

theorem magnitude_label_iff (m : ℝ) :
    (magnitude_label m = Magnitude.negligible ↔ m < 0.2)
    ∧ (magnitude_label m = Magnitude.small ↔ 0.2 ≤ m ∧ m < 0.5)
    ∧ (magnitude_label m = Magnitude.moderate ↔ 0.5 ≤ m ∧ m < 1.0)
    ∧ (magnitude_label m = Magnitude.large ↔ 1.0 ≤ m ∧ m < 2.0)
    ∧ (magnitude_label m = Magnitude.veryLarge ↔ 2.0 ≤ m) := by
  unfold magnitude_label
  split_ifs with h1 h2 h3 h4
  · exact ⟨iff_of_true rfl h1,
      iff_of_false (by simp) (fun hx => by linarith [hx.1]),
      iff_of_false (by simp) (fun hx => by linarith [hx.1]),
      iff_of_false (by simp) (fun hx => by linarith [hx.1]),
      iff_of_false (by simp) (fun hx => by linarith)⟩
  · exact ⟨iff_of_false (by simp) h1,
      iff_of_true rfl ⟨not_lt.mp h1, h2⟩,
      iff_of_false (by simp) (fun hx => by linarith [hx.1]),
      iff_of_false (by simp) (fun hx => by linarith [hx.1]),
      iff_of_false (by simp) (fun hx => by linarith)⟩
  · exact ⟨iff_of_false (by simp) h1,
      iff_of_false (by simp) (fun hx => by linarith [hx.2]),
      iff_of_true rfl ⟨not_lt.mp h2, h3⟩,
      iff_of_false (by simp) (fun hx => by linarith [hx.1]),
      iff_of_false (by simp) (fun hx => by linarith)⟩
  · exact ⟨iff_of_false (by simp) h1,
      iff_of_false (by simp) (fun hx => by linarith [hx.2]),
      iff_of_false (by simp) (fun hx => by linarith [hx.2]),
      iff_of_true rfl ⟨not_lt.mp h3, h4⟩,
      iff_of_false (by simp) (fun hx => by linarith)⟩
  · exact ⟨iff_of_false (by simp) h1,
      iff_of_false (by simp) (fun hx => by linarith [hx.2]),
      iff_of_false (by simp) (fun hx => by linarith [hx.2]),
      iff_of_false (by simp) (fun hx => by linarith [hx.2]),
      iff_of_true rfl (not_lt.mp h4)⟩

/-- C4: `quantify_impact` computes `mean_change` as the difference of the
posterior means, the percentage change with the exact-zero special case,
the direction labels with the 5-percent `minimal` band, and the magnitude
labels by the cut-points 0.2 / 0.5 / 1.0 / 2.0 on
`|mean_change| / std(series)`. -/
theorem C4_quantify_impact (mu1 mu2 data : List ℝ) :
    (quantify_impact mu1 mu2 data).mean_change = rMean mu2 - rMean mu1
    ∧ (rMean mu1 ≠ 0 → (quantify_impact mu1 mu2 data).mean_change_pct
        = some ((rMean mu2 - rMean mu1) / |rMean mu1| * 100))
    ∧ (rMean mu1 = 0 → (quantify_impact mu1 mu2 data).mean_change_pct = none)
    ∧ ((quantify_impact mu1 mu2 data).direction = Direction.minimal ↔
        ∃ p, (quantify_impact mu1 mu2 data).mean_change_pct = some p ∧ |p| < 5)
    ∧ ((quantify_impact mu1 mu2 data).direction ≠ Direction.minimal →
        ((quantify_impact mu1 mu2 data).direction = Direction.increase ↔
          0 < (quantify_impact mu1 mu2 data).mean_change)
        ∧ ((quantify_impact mu1 mu2 data).direction = Direction.decrease ↔
          ¬ 0 < (quantify_impact mu1 mu2 data).mean_change))
    ∧ (0 < rStd data → (quantify_impact mu1 mu2 data).magnitude_in_std
        = |rMean mu2 - rMean mu1| / rStd data)
    ∧ ((quantify_impact mu1 mu2 data).magnitude = Magnitude.negligible ↔
        (quantify_impact mu1 mu2 data).magnitude_in_std < 0.2)
    ∧ ((quantify_impact mu1 mu2 data).magnitude = Magnitude.small ↔
        0.2 ≤ (quantify_impact mu1 mu2 data).magnitude_in_std
          ∧ (quantify_impact mu1 mu2 data).magnitude_in_std < 0.5)
    ∧ ((quantify_impact mu1 mu2 data).magnitude = Magnitude.moderate ↔
        0.5 ≤ (quantify_impact mu1 mu2 data).magnitude_in_std
          ∧ (quantify_impact mu1 mu2 data).magnitude_in_std < 1.0)
    ∧ ((quantify_impact mu1 mu2 data).magnitude = Magnitude.large ↔
        1.0 ≤ (quantify_impact mu1 mu2 data).magnitude_in_std
          ∧ (quantify_impact mu1 mu2 data).magnitude_in_std < 2.0)
    ∧ ((quantify_impact mu1 mu2 data).magnitude = Magnitude.veryLarge ↔
        2.0 ≤ (quantify_impact mu1 mu2 data).magnitude_in_std) := by
  refine ⟨rfl, ?_, ?_, ?_, ?_, ?_, ?_, ?_, ?_, ?_, ?_⟩
  · intro h
    simp only [quantify_impact]
    rw [if_pos h]
  · intro h
    simp only [quantify_impact]
    rw [if_neg (by simp [h])]
  · exact direction_label_minimal_iff _ _
  · intro h
    exact direction_label_not_minimal _ _ h
  · intro h
    simp only [quantify_impact]
    rw [if_pos h]
  · exact (magnitude_label_iff _).1
  · exact (magnitude_label_iff _).2.1
  · exact (magnitude_label_iff _).2.2.1
  · exact (magnitude_label_iff _).2.2.2.1
  · exact (magnitude_label_iff _).2.2.2.2

/-- Witness for C4: draws with means 3 and 5 over the series `[0, 2]`
(standard deviation 1) yield an `increase` of magnitude `very large`. -/
theorem C4_quantify_impact_witness :
    (quantify_impact [2, 4] [4, 6] [0, 2]).direction = Direction.increase
    ∧ (quantify_impact [2, 4] [4, 6] [0, 2]).magnitude = Magnitude.veryLarge := by
  obtain ⟨hch, hpct, -, hmin, hnm, hstd', -, -, -, -, hvl⟩ :=
    C4_quantify_impact [2, 4] [4, 6] [0, 2]
  have h1 : rMean [2, 4] = 3 := by norm_num [rMean]
  have h2 : rMean [4, 6] = 5 := by norm_num [rMean]
  have hstd : rStd [0, 2] = 1 := by
    have hm : rMean [0, 2] = 1 := by norm_num [rMean]
    rw [rStd, hm]
    have hlist : ([0, 2] : List ℝ).map (fun x => (x - 1) ^ 2) = [1, 1] := by
      norm_num
    rw [hlist]
    have hm2 : rMean [1, 1] = 1 := by norm_num [rMean]
    rw [hm2, Real.sqrt_one]
  have hchv : (quantify_impact [2, 4] [4, 6] [0, 2]).mean_change = 2 := by
    rw [hch, h1, h2]; norm_num
  have hne3 : rMean [2, 4] ≠ 0 := by rw [h1]; norm_num
  have hpctv : (quantify_impact [2, 4] [4, 6] [0, 2]).mean_change_pct
      = some (200 / 3) := by
    rw [hpct hne3, h1, h2]
    norm_num
  have hnotmin : (quantify_impact [2, 4] [4, 6] [0, 2]).direction
      ≠ Direction.minimal := by
    intro hcon
    obtain ⟨p, hp, hlt⟩ := hmin.mp hcon
    rw [hpctv] at hp
    have hpe : p = 200 / 3 := (Option.some.inj hp).symm
    rw [hpe, abs_of_nonneg (by norm_num : (0 : ℝ) ≤ 200 / 3)] at hlt
    norm_num at hlt
  have hdir := (hnm hnotmin).1.mpr (by rw [hchv]; norm_num)
  have hins : (quantify_impact [2, 4] [4, 6] [0, 2]).magnitude_in_std = 2 := by
    rw [hstd' (by rw [hstd]; norm_num), h1, h2, hstd]
    norm_num
  exact ⟨hdir, hvl.mpr (by rw [hins]; norm_num)⟩

/-- C10: when the series has zero standard deviation, `quantify_impact`
guards the division: `magnitude_in_std` is 0, the magnitude is `negligible`,
and the call returns normally. -/
theorem C10_constant_series (mu1 mu2 data : List ℝ) (c : ℝ)
    (hconst : ∀ x ∈ data, x = c) :
    (quantify_impact mu1 mu2 data).magnitude_in_std = 0
    ∧ (quantify_impact mu1 mu2 data).magnitude = Magnitude.negligible := by
  have hstd : rStd data = 0 := by
    have hdev : ∀ y ∈ data.map (fun x => (x - rMean data) ^ 2), y = 0 := by
      rintro y hy
      obtain ⟨x, hx, rfl⟩ := List.mem_map.mp hy
      rcases eq_or_ne data [] with rfl | hne
      · cases hx
      · have hmean : rMean data = c := by
          have hlen0 : 0 < data.length := List.length_pos.mpr hne
          have hlen : (data.length : ℝ) ≠ 0 := by
            exact_mod_cast Nat.pos_iff_ne_zero.mp hlen0
          have hsum : data.sum = data.length • c :=
            List.sum_eq_card_nsmul data c hconst
          rw [rMean, hsum, nsmul_eq_mul]
          field_simp
        rw [hmean, hconst x hx]
        ring
    rw [rStd, rMean, List.sum_eq_zero hdev, zero_div, Real.sqrt_zero]
  constructor
  · simp only [quantify_impact]
    rw [hstd, if_neg (lt_irrefl 0)]
  · simp only [quantify_impact]
    rw [hstd, if_neg (lt_irrefl 0)]
    unfold magnitude_label
    rw [if_pos (by norm_num)]

/-- Witness for C10: a constant two-point series. -/
theorem C10_constant_series_witness :
    (quantify_impact [0] [1] [5, 5]).magnitude_in_std = 0
    ∧ (quantify_impact [0] [1] [5, 5]).magnitude = Magnitude.negligible :=
  C10_constant_series [0] [1] [5, 5] 5 (by intro x hx; simpa using hx)

end BrentCP
